import Mathlib

/-
  Verification of the synchronization/download orchestration engine of
  YT_daily.py against its design specification.

  The Python source is shallowly embedded: JSON dict state becomes
  association lists keyed by String, datetimes become Nat timestamps,
  floats compared only for equality become Rat, and the yt-dlp regexes of
  parse_progress are embedded with a small backtracking matcher over
  List Char that mirrors Python re semantics (greedy quantifiers over
  character classes, leftmost match, ASCII classes).
-/

namespace YTDaily

/-- One scanned item, as built by get_all_recent_videos:
    id / title / url / duration (seconds, 0 if unknown). -/
structure VideoInfo where
  id : String
  title : String
  url : String
  duration : Nat
deriving DecidableEq, Repr

/-- One element of a channel's downloaded_videos list. -/
structure HistVideo where
  id : String
  title : String
  url : String
  downloaded_at : Nat
deriving DecidableEq, Repr

/-- Per-channel history record: downloaded_videos plus last_download. -/
structure ChannelEntry where
  downloaded_videos : List HistVideo
  last_download : Nat
deriving DecidableEq, Repr

/-- channel_history.json content: the channels dict and the
    first_run_completed flag. -/
structure ChannelHistory where
  channels : List (String × ChannelEntry)
  first_run_completed : Bool
deriving DecidableEq, Repr

/-- Replace the value stored under key k (dict assignment for a key that
    is present). -/
def alist_set {β : Type} (l : List (String × β)) (k : String) (v : β) :
    List (String × β) :=
  l.map (fun p => if p.1 = k then (k, v) else p)

/-- Python dict assignment d[k] = v: overwrite if present, else append. -/
def dict_insert {β : Type} (l : List (String × β)) (k : String) (v : β) :
    List (String × β) :=
  if (l.lookup k).isSome then alist_set l k v else l ++ [(k, v)]

/-- Python dict deletion del d[k]. -/
def dict_erase {β : Type} (l : List (String × β)) (k : String) :
    List (String × β) :=
  l.filter (fun p => !(p.1 == k))

/-- update_channel_history (YT_daily.py lines 358-391): ensure the channel
    record exists, append the video if its id is not already present, cap
    the list at the last 1000 entries, refresh last_download. -/
def update_channel_history (h : ChannelHistory) (handle : String)
    (v : VideoInfo) (now : Nat) : ChannelHistory :=
  let fresh : ChannelEntry := { downloaded_videos := [], last_download := now }
  let chans :=
    if (h.channels.lookup handle).isSome then h.channels
    else h.channels ++ [(handle, fresh)]
  let entry := (chans.lookup handle).getD fresh
  if v.id ∈ entry.downloaded_videos.map HistVideo.id then
    { h with channels := chans }
  else
    let appended := entry.downloaded_videos ++
      [{ id := v.id, title := v.title, url := v.url, downloaded_at := now }]
    let capped :=
      if 1000 < appended.length then appended.drop (appended.length - 1000)
      else appended
    { h with
      channels := alist_set chans handle
        { downloaded_videos := capped, last_download := now } }

/-- is_video_downloaded (lines 393-402): the id occurs in the channel's
    downloaded_videos. -/
def is_video_downloaded (h : ChannelHistory) (handle : String)
    (video_id : String) : Bool :=
  match h.channels.lookup handle with
  | some e => e.downloaded_videos.any (fun w => w.id == video_id)
  | none => false

/-- The downloaded_videos list of a channel (empty when absent). -/
def entry_videos (h : ChannelHistory) (handle : String) : List HistVideo :=
  match h.channels.lookup handle with
  | some e => e.downloaded_videos
  | none => []

/-- mark_first_run_completed (lines 349-352). -/
def mark_first_run_completed (h : ChannelHistory) : ChannelHistory :=
  { h with first_run_completed := true }

/-- is_first_run (lines 354-356). -/
def is_first_run (h : ChannelHistory) : Bool :=
  !h.first_run_completed

/-- Folding a sequence of history commits (the orchestrator commits one
    update_channel_history per successful download). -/
def apply_history_ops (h : ChannelHistory)
    (ops : List (String × VideoInfo × Nat)) : ChannelHistory :=
  ops.foldl (fun acc op => update_channel_history acc op.1 op.2.1 op.2.2) h

/-- Commit a list of successfully downloaded videos of one source. -/
def commit_downloads (h : ChannelHistory) (handle : String)
    (vids : List VideoInfo) (now : Nat) : ChannelHistory :=
  vids.foldl (fun acc v => update_channel_history acc handle v now) h

/-- Accumulator of the per-source planning loop of process_channel_auto /
    process_playlist_auto (tasks plus the three counters). -/
structure PlanAcc where
  tasks : List (VideoInfo × String × String)
  new_videos_count : Nat
  already_downloaded_count : Nat
  shorts_skipped : Nat
deriving DecidableEq, Repr

/-- One iteration of the loop at lines 1641-1656: skip shorts when the
    filter is on, then skip already-downloaded ids, else emit a task. -/
def plan_step (filter_shorts : Bool) (h : ChannelHistory)
    (handle display_name kind : String) (acc : PlanAcc) (v : VideoInfo) :
    PlanAcc :=
  if filter_shorts && decide (v.duration < 60) then
    { acc with shorts_skipped := acc.shorts_skipped + 1 }
  else if is_video_downloaded h handle v.id then
    { acc with already_downloaded_count := acc.already_downloaded_count + 1 }
  else
    { acc with
      tasks := acc.tasks ++ [(v, display_name, kind)]
      new_videos_count := acc.new_videos_count + 1 }

/-- The planning core of process_channel_auto (lines 1641-1656), for a
    given scan result. -/
def process_channel_auto_plan (filter_shorts : Bool) (h : ChannelHistory)
    (handle display_name : String) (recent : List VideoInfo) : PlanAcc :=
  recent.foldl (plan_step filter_shorts h handle display_name "channel")
    ⟨[], 0, 0, 0⟩

/-- The planning core of process_playlist_auto (lines 1714-1732); the
    playlist URL is the history key. -/
def process_playlist_auto_plan (filter_shorts : Bool) (h : ChannelHistory)
    (playlist_url playlist_name : String) (recent : List VideoInfo) :
    PlanAcc :=
  recent.foldl (plan_step filter_shorts h playlist_url playlist_name "playlist")
    ⟨[], 0, 0, 0⟩

/-- process_channel_first_run (lines 1785-1832): with limit 0 nothing is
    planned, otherwise every scanned item becomes a task (no short filter
    and no history check on this path). -/
def process_channel_first_run (handle display_name : String)
    (video_limit : Nat) (recent : List VideoInfo) :
    List (VideoInfo × String × String) :=
  if video_limit = 0 then []
  else recent.map (fun v => (v, display_name, "channel"))

/-- The monitored sources and their (already fetched) scan results for one
    pass: channels handle ↦ display name, playlists url ↦ name. -/
structure RunEnv where
  channels : List (String × String)
  playlists : List (String × String)
  scans : List (String × List VideoInfo)
deriving Repr

/-- Scan result of one source key inside a pass. -/
def scan_of (env : RunEnv) (key : String) : List VideoInfo :=
  (env.scans.lookup key).getD []

/-- The reverse display-name lookup of download_videos_parallel
    ([k for k, v in dict.items() if v == source_name][0]). -/
def first_key_for (l : List (String × String)) (name : String) :
    Option String :=
  (l.find? (fun p => p.2 == name)).map Prod.fst

/-- History effect of download_videos_parallel (lines 1834-1911): each
    successful task is committed via update_channel_history under the key
    recovered from its source name; failed tasks change nothing. -/
def download_videos_parallel_commit (env : RunEnv) (h : ChannelHistory)
    (tasks : List (VideoInfo × String × String))
    (succeeds : VideoInfo → Bool) (now : Nat) : ChannelHistory :=
  tasks.foldl
    (fun acc t =>
      if succeeds t.1 then
        match
          (if t.2.2 = "channel" then first_key_for env.channels t.2.1
           else first_key_for env.playlists t.2.1) with
        | some key => update_channel_history acc key t.1 now
        | none => acc
      else acc)
    h

/-- History/flag effect of one run_auto_download pass (lines 1914-1995):
    on a first run plan with the initial-population policy and mark the
    first run completed before the downloads; otherwise plan with the
    steady-state policy; then commit the download results. -/
def run_auto_download (env : RunEnv) (filter_shorts : Bool)
    (initial_limit : Nat) (h : ChannelHistory)
    (succeeds : VideoInfo → Bool) (now : Nat) : ChannelHistory :=
  if is_first_run h then
    let tasks :=
      (env.channels.map
        (fun c => process_channel_first_run c.1 c.2 initial_limit
          (scan_of env c.1))).flatten ++
      (env.playlists.map
        (fun p => process_channel_first_run p.1 p.2 initial_limit
          (scan_of env p.1))).flatten
    download_videos_parallel_commit env (mark_first_run_completed h) tasks
      succeeds now
  else
    let tasks :=
      (env.channels.map
        (fun c => (process_channel_auto_plan filter_shorts h c.1 c.2
          (scan_of env c.1)).tasks)).flatten ++
      (env.playlists.map
        (fun p => (process_playlist_auto_plan filter_shorts h p.1 p.2
          (scan_of env p.1)).tasks)).flatten
    download_videos_parallel_commit env h tasks succeeds now

/-- The "timestamp" field of one persisted resume entry as the load-time
    sweep sees it: missing (entry.get substitutes "2000-01-01"), present
    and parseable by datetime.fromisoformat to a time, or present but
    unparseable (fromisoformat raises ValueError inside the sweep). -/
inductive TimestampField where
  | missing
  | valid (t : Nat)
  | invalid
deriving DecidableEq, Repr

/-- One resume_state.json entry: its JSON payload fields plus the
    "timestamp" field. -/
structure ResumeEntry where
  fields : List (String × String)
  timestamp : TimestampField
deriving DecidableEq, Repr

/-- resume_state.json content: the "videos" and "playlists" dicts. -/
structure ResumeState where
  videos : List (String × ResumeEntry)
  playlists : List (String × ResumeEntry)
deriving DecidableEq, Repr

/-- update_resume_state (lines 468-484): store the payload with a fresh
    timestamp under the item id; unknown item types change nothing. -/
def update_resume_state (rs : ResumeState) (item_type item_id : String)
    (data : List (String × String)) (now : Nat) : ResumeState :=
  if item_type = "video" then
    { rs with videos :=
        dict_insert rs.videos item_id ⟨data, TimestampField.valid now⟩ }
  else if item_type = "playlist" then
    { rs with playlists :=
        dict_insert rs.playlists item_id ⟨data, TimestampField.valid now⟩ }
  else rs

/-- get_resume_state (lines 486-495). -/
def get_resume_state (rs : ResumeState) (item_type item_id : String) :
    Option ResumeEntry :=
  if item_type = "video" then rs.videos.lookup item_id
  else if item_type = "playlist" then rs.playlists.lookup item_id
  else none

/-- clear_resume_state (lines 497-507): delete the entry when present. -/
def clear_resume_state (rs : ResumeState) (item_type item_id : String) :
    ResumeState :=
  if item_type = "video" && (rs.videos.lookup item_id).isSome then
    { rs with videos := dict_erase rs.videos item_id }
  else if item_type = "playlist" && (rs.playlists.lookup item_id).isSome then
    { rs with playlists := dict_erase rs.playlists item_id }
  else rs

/-- Seconds timestamp of 2000-01-01T00:00:00, the default that
    cleanup_old_resume_entries substitutes for a missing "timestamp"
    field (entry.get("timestamp", "2000-01-01")). -/
def epoch2000 : Nat := 946684800

/-- The time the sweep compares an entry against the cutoff: the parsed
    timestamp, or 2000-01-01 when the field is missing. An unparseable
    field never reaches the comparison (it raises first), so its value
    here is irrelevant and fixed to 0. -/
def sweep_time : TimestampField → Nat
  | TimestampField.missing => epoch2000
  | TimestampField.valid t => t
  | TimestampField.invalid => 0

/-- One dict loop of cleanup_old_resume_entries, processed in insertion
    order: a missing timestamp is dated 2000-01-01 and the entry deleted
    when that predates the cutoff, a valid timestamp is compared likewise,
    and an unparseable timestamp raises — the returned flag is false, the
    raising entry and everything after it are left untouched (deletions
    already made stand, since the dict was mutated in place). -/
def sweep_entries (cutoff : Nat) :
    List (String × ResumeEntry) → List (String × ResumeEntry) × Bool
  | [] => ([], true)
  | p :: rest =>
    match p.2.timestamp with
    | TimestampField.invalid => (p :: rest, false)
    | TimestampField.missing =>
      if epoch2000 < cutoff then sweep_entries cutoff rest
      else
        let r := sweep_entries cutoff rest
        (p :: r.1, r.2)
    | TimestampField.valid t =>
      if t < cutoff then sweep_entries cutoff rest
      else
        let r := sweep_entries cutoff rest
        (p :: r.1, r.2)

/-- cleanup_old_resume_entries (lines 439-466): sweep the videos dict,
    then the playlists dict; the try/except wraps both loops, so an
    exception in the video loop aborts the whole sweep and the playlists
    are never touched, while an exception in the playlist loop leaves its
    own remaining entries untouched. -/
def cleanup_old_resume_entries (rs : ResumeState) (cutoff : Nat) :
    ResumeState :=
  let v := sweep_entries cutoff rs.videos
  if v.2 then
    let pl := sweep_entries cutoff rs.playlists
    { videos := v.1, playlists := pl.1 }
  else
    { videos := v.1, playlists := rs.playlists }

/-- load_resume_state (lines 404-428): a readable file is loaded and swept
    by cleanup_old_resume_entries; a missing or corrupt file yields a
    fresh empty state. -/
def load_resume_state (file : Option ResumeState) (cutoff : Nat) :
    ResumeState :=
  match file with
  | some rs => cleanup_old_resume_entries rs cutoff
  | none => { videos := [], playlists := [] }

/-- The resume-store effect of download_video (lines 1348-1441): decide
    the resume flag from the local-artifact probe and the existing entry,
    record a Resume entry when resuming, then clear it on success and
    retain it on failure. -/
def download_video_resume_effect (rs : ResumeState)
    (video_id video_url video_title source_name : String)
    (can_resume : Bool) (current_resume_progress : Nat) (success : Bool)
    (now : Nat) : ResumeState :=
  let resume_entry := get_resume_state rs "video" video_id
  let resume :=
    (can_resume && decide (current_resume_progress < 100)) ||
    (resume_entry.isSome && decide (current_resume_progress < 100))
  let rs1 :=
    if resume then
      update_resume_state rs "video" video_id
        [("url", video_url), ("title", video_title),
         ("source", source_name),
         ("progress", toString current_resume_progress), ("type", "video")]
        now
    else rs
  if success then clear_resume_state rs1 "video" video_id else rs1

/-- The last n elements of a list (Python l[-n:] for n > 0). -/
def lastN {α : Type} (n : Nat) (l : List α) : List α :=
  l.drop (l.length - n)

/-- Python "ERROR:" in line (substring containment). -/
def line_has_error (l : String) : Bool :=
  decide ("ERROR:".data <:+: l.data)

/-- The completion decision of _execute_download (lines 1513-1522): with
    exit code 0 the stderr lines are double-checked for the "ERROR:"
    marker; the error summary joins the last five stderr lines. -/
def execute_download_result (return_code : Int) (stderr_lines : List String)
    (video_id : String) : Bool × String × String :=
  let error_summary :=
    if stderr_lines.isEmpty then "Unknown error"
    else String.join (lastN 5 stderr_lines)
  if return_code = 0 then
    if stderr_lines.any line_has_error then (false, video_id, error_summary)
    else (true, video_id, "")
  else (false, video_id, error_summary)

/-- One directory_durations.json entry: the stat fingerprint and the
    cached duration (floats modelled as rationals). -/
structure DurationCacheEntry where
  mtime : ℚ
  size : Nat
  duration : ℚ
deriving DecidableEq, Repr

/-- DirectoryDurationCache.get (lines 127-137): the cached duration is
    returned only when an entry exists and the file still stats with
    exactly the stored mtime and size; a missing file (stat = none) or any
    mismatch yields none. -/
def duration_cache_get (cache : List (String × DurationCacheEntry))
    (path : String) (stat : Option (ℚ × Nat)) : Option ℚ :=
  match cache.lookup path with
  | none => none
  | some entry =>
    match stat with
    | none => none
    | some s =>
      if entry.mtime = s.1 ∧ entry.size = s.2 then some entry.duration
      else none

/-- A primitive regex token: a literal, a single character of a class, a
    greedy class star, or a greedy optional class character. Every
    quantifier in the parse_progress patterns ranges over a character
    class, so this token language covers them exactly. -/
inductive Tok where
  | lit (s : List Char)
  | one (p : Char → Bool)
  | many0 (p : Char → Bool)
  | opt (p : Char → Bool)

/-- A pattern item: a bare token, a capturing group of tokens, or a
    capturing group made of two alternatives (for (\d+:\d+|\d+)). -/
inductive Item where
  | tok (t : Tok)
  | group (ts : List Tok)
  | groupAlt (a b : List Tok)

/-- Greedy-with-backtracking loop for a starred character class p*: first
    try to consume the current character (when it is in the class) and
    continue the star, and only on failure hand the remaining input to the
    continuation m — exactly Python re's greedy order. -/
def tryMany0 {α : Type} (p : Char → Bool) (m : List Char → Option α) :
    List Char → Option α
  | [] => m []
  | c :: cs' =>
    if p c then
      match tryMany0 p m cs' with
      | some r => some r
      | none => m (c :: cs')
    else m (c :: cs')

/-- Backtracking matcher for a token sequence at the start of the input,
    calling the continuation with what remains; quantifiers are tried
    greedily first, like Python re. -/
def matchToks {α : Type} : List Tok → List Char →
    (List Char → Option α) → Option α
  | [], cs, k => k cs
  | Tok.lit s :: rest, cs, k =>
    if s <+: cs then matchToks rest (cs.drop s.length) k else none
  | Tok.one p :: rest, cs, k =>
    match cs with
    | [] => none
    | c :: cs' => if p c then matchToks rest cs' k else none
  | Tok.many0 p :: rest, cs, k =>
    tryMany0 p (fun cs' => matchToks rest cs' k) cs
  | Tok.opt p :: rest, cs, k =>
    match cs with
    | [] => matchToks rest [] k
    | c :: cs' =>
      if p c then
        match matchToks rest cs' k with
        | some r => some r
        | none => matchToks rest (c :: cs') k
      else matchToks rest (c :: cs') k

/-- Backtracking matcher for an item sequence at the start of the input;
    returns the captured groups in order when the whole sequence matches
    somewhere at this position. -/
def matchItems : List Item → List Char →
    (List Char → Option (List String)) → Option (List String)
  | [], cs, k => k cs
  | Item.tok t :: rest, cs, k =>
    matchToks [t] cs (fun cs' => matchItems rest cs' k)
  | Item.group ts :: rest, cs, k =>
    matchToks ts cs (fun cs' =>
      (matchItems rest cs' k).map
        (fun caps => String.mk (cs.take (cs.length - cs'.length)) :: caps))
  | Item.groupAlt a b :: rest, cs, k =>
    match
      matchToks a cs (fun cs' =>
        (matchItems rest cs' k).map
          (fun caps => String.mk (cs.take (cs.length - cs'.length)) :: caps))
    with
    | some r => some r
    | none =>
      matchToks b cs (fun cs' =>
        (matchItems rest cs' k).map
          (fun caps => String.mk (cs.take (cs.length - cs'.length)) :: caps))

/-- re.search: try the pattern at every start position, leftmost first,
    and return the captured groups of the first match. -/
def reSearch (items : List Item) : List Char → Option (List String)
  | [] => matchItems items [] (fun _ => some [])
  | c :: t =>
    match matchItems items (c :: t) (fun _ => some []) with
    | some caps => some caps
    | none => reSearch items t

/-- Python \d (ASCII). -/
def isDigitC (c : Char) : Bool := c.isDigit

/-- Python \s (ASCII part). -/
def isWSC (c : Char) : Bool :=
  c == ' ' || c == '\t' || c == '\n' || c == '\r' || c == '\x0b' || c == '\x0c'

/-- Python \w (ASCII part). -/
def isWordC (c : Char) : Bool := c.isAlphanum || c == '_'

/-- Python . (any character but a newline). -/
def notNL (c : Char) : Bool := !(c == '\n')

/-- Group for a number (\d+\.?\d*). -/
def numG : Item :=
  Item.group [Tok.one isDigitC, Tok.many0 isDigitC,
    Tok.opt (fun c => c == '.'), Tok.many0 isDigitC]

/-- Group for a unit word (\w+). -/
def wordG : Item := Item.group [Tok.one isWordC, Tok.many0 isWordC]

/-- Group for a bare integer (\d+). -/
def intG : Item := Item.group [Tok.one isDigitC, Tok.many0 isDigitC]

/-- \s+ is rendered as these two items. -/
def wsp : Item := Item.tok (Tok.one isWSC)

/-- The star half of \s+, and \s* on its own. -/
def ws0 : Item := Item.tok (Tok.many0 isWSC)

/-- The items after the leading \[download\] literal of the
    download-progress pattern. -/
def downloadPatRest : List Item :=
  [wsp, ws0,
   numG, Item.tok (Tok.lit "%".data), wsp, ws0,
   Item.tok (Tok.lit "of".data), wsp, ws0,
   Item.tok (Tok.opt (fun c => c == '~')), ws0,
   numG, wordG, wsp, ws0,
   Item.tok (Tok.lit "at".data), wsp, ws0,
   numG, wordG, Item.tok (Tok.lit "/s".data), wsp, ws0,
   Item.tok (Tok.lit "ETA".data), wsp, ws0,
   Item.groupAlt
     [Tok.one isDigitC, Tok.many0 isDigitC, Tok.lit [':'],
      Tok.one isDigitC, Tok.many0 isDigitC]
     [Tok.one isDigitC, Tok.many0 isDigitC]]

/-- The download-progress pattern
    \[download\]\s+(\d+\.?\d*)%\s+of\s+~?\s*(\d+\.?\d*)(\w+)\s+at\s+(\d+\.?\d*)(\w+)/s\s+ETA\s+(\d+:\d+|\d+)
    of parse_progress (lines 1195-1198). -/
def downloadPat : List Item :=
  Item.tok (Tok.lit "[download]".data) :: downloadPatRest

/-- The items after the leading \[ExtractAudio\] literal of the
    audio-extraction pattern. -/
def extractPatRest : List Item :=
  [wsp, ws0,
   Item.tok (Tok.lit "Destination:".data), wsp, ws0,
   Item.group [Tok.one notNL, Tok.many0 notNL]]

/-- The audio-extraction pattern \[ExtractAudio\]\s+Destination:\s+(.+)
    (line 1210). -/
def extractPat : List Item :=
  Item.tok (Tok.lit "[ExtractAudio]".data) :: extractPatRest

/-- The items after the leading \[FFmpeg\] literal of the conversion
    pattern. -/
def ffmpegPatRest : List Item :=
  [wsp, ws0,
   Item.tok (Tok.lit "Converting".data), wsp, ws0,
   Item.tok (Tok.one notNL), Item.tok (Tok.many0 notNL), wsp, ws0,
   Item.tok (Tok.lit "to".data), wsp, ws0,
   Item.tok (Tok.one notNL), Item.tok (Tok.many0 notNL)]

/-- The conversion pattern \[FFmpeg\]\s+Converting\s+.+\s+to\s+.+
    (line 1215). -/
def ffmpegPat : List Item :=
  Item.tok (Tok.lit "[FFmpeg]".data) :: ffmpegPatRest

/-- The items after the leading \[download\] literal of the
    playlist-position pattern. -/
def playlistPatRest : List Item :=
  [wsp, ws0,
   Item.tok (Tok.lit "Downloading".data), wsp, ws0,
   Item.tok (Tok.lit "item".data), wsp, ws0,
   intG, wsp, ws0,
   Item.tok (Tok.lit "of".data), wsp, ws0,
   intG]

/-- The playlist-position pattern
    \[download\]\s+Downloading\s+item\s+(\d+)\s+of\s+(\d+) (line 1220). -/
def playlistPat : List Item :=
  Item.tok (Tok.lit "[download]".data) :: playlistPatRest

/-- The five classifications that parse_progress can return (the type
    field of its result dict, with the captured fields). -/
inductive ProgressInfo where
  | download (percent size speed eta : String)
  | extract (file : String)
  | converting
  | playlist_progress (current total : String)
  | starting
deriving DecidableEq, Repr

/-- parse_progress (lines 1192-1231): classify one line of yt-dlp output,
    trying the five shapes in order and returning none when nothing
    matches. -/
def parse_progress (line : String) : Option ProgressInfo :=
  match reSearch downloadPat line.data with
  | some [pc, sz, szu, sp, spu, eta] =>
    some (ProgressInfo.download pc (sz ++ szu) (sp ++ spu ++ "/s") eta)
  | _ =>
    match reSearch extractPat line.data with
    | some [f] => some (ProgressInfo.extract f)
    | _ =>
      match reSearch ffmpegPat line.data with
      | some _ => some ProgressInfo.converting
      | none =>
        match reSearch playlistPat line.data with
        | some [cur, tot] => some (ProgressInfo.playlist_progress cur tot)
        | _ =>
          if "[download] Destination:".data <:+: line.data then
            some ProgressInfo.starting
          else none

/-- Well-formedness of the channel history: in every channel record the
    video ids are pairwise distinct. -/
def history_well_formed (h : ChannelHistory) : Prop :=
  ∀ p ∈ h.channels, (p.2.downloaded_videos.map HistVideo.id).Nodup

/-- The steady-state planner emits a task for v exactly when v is not a
    filtered short and its id is not in the source's history. -/
def keep_video (filter_shorts : Bool) (h : ChannelHistory) (handle : String)
    (v : VideoInfo) : Bool :=
  !(filter_shorts && decide (v.duration < 60)) &&
    !(is_video_downloaded h handle v.id)

/-- The new HistVideo record appended by update_channel_history. -/
def new_hist_video (v : VideoInfo) (now : Nat) : HistVideo :=
  { id := v.id, title := v.title, url := v.url, downloaded_at := now }

/-- The capped downloaded_videos list after an append (the last-1000 slice
    of update_channel_history). -/
def cap_1000 (dv : List HistVideo) : List HistVideo :=
  if 1000 < dv.length then dv.drop (dv.length - 1000) else dv

section AssocListLemmas

variable {β : Type}

theorem lookup_mem {l : List (String × β)} {k : String} {v : β}
    (h : l.lookup k = some v) : (k, v) ∈ l := by
  induction l with
  | nil => simp [List.lookup] at h
  | cons p t ih =>
    by_cases hk : k = p.1
    · subst hk
      cases p with
      | mk k1 v1 =>
        simp [List.lookup] at h
        simp [h]
    · cases p with
      | mk k1 v1 =>
        rw [show (k1, v1) = (k1, v1) from rfl] at h
        simp only [List.lookup, beq_eq_false_iff_ne.mpr hk] at h
        exact List.mem_cons_of_mem _ (ih h)

theorem lookup_append_single {l : List (String × β)} {k : String} {v : β}
    (h : l.lookup k = none) : (l ++ [(k, v)]).lookup k = some v := by
  induction l with
  | nil => simp [List.lookup]
  | cons p t ih =>
    cases p with
    | mk k1 v1 =>
      by_cases hk : k = k1
      · subst hk; simp [List.lookup] at h
      · simp only [List.lookup, beq_eq_false_iff_ne.mpr hk] at h
        simpa only [List.cons_append, List.lookup,
          beq_eq_false_iff_ne.mpr hk] using ih h

theorem lookup_alist_set {l : List (String × β)} {k : String} {v : β} :
    (alist_set l k v).lookup k = (l.lookup k).map (fun _ => v) := by
  induction l with
  | nil => simp [alist_set, List.lookup]
  | cons p t ih =>
    cases p with
    | mk k1 v1 =>
      by_cases hk : k1 = k
      · subst hk
        show List.lookup k1
            ((if k1 = k1 then (k1, v) else (k1, v1)) :: alist_set t k1 v) = _
        rw [if_pos rfl]
        simp [List.lookup]
      · have hk' : k ≠ k1 := fun hc => hk hc.symm
        show List.lookup k
            ((if k1 = k then (k, v) else (k1, v1)) :: alist_set t k v) = _
        rw [if_neg hk,
          show List.lookup k ((k1, v1) :: alist_set t k v)
              = List.lookup k (alist_set t k v) by
            simp [List.lookup, beq_eq_false_iff_ne.mpr hk'],
          show List.lookup k ((k1, v1) :: t) = List.lookup k t by
            simp [List.lookup, beq_eq_false_iff_ne.mpr hk']]
        exact ih

theorem mem_alist_set {l : List (String × β)} {k : String} {v : β}
    {q : String × β} (h : q ∈ alist_set l k v) : q ∈ l ∨ q = (k, v) := by
  rcases List.mem_map.mp h with ⟨p, hp, heq⟩
  by_cases hk : p.1 = k
  · right; rw [← heq]; simp [hk]
  · left; rw [← heq]; simpa [hk] using hp

theorem lookup_dict_insert_self {l : List (String × β)} {k : String}
    {v : β} : (dict_insert l k v).lookup k = some v := by
  unfold dict_insert
  by_cases h : (l.lookup k).isSome
  · rw [if_pos h, lookup_alist_set]
    rcases Option.isSome_iff_exists.mp h with ⟨w, hw⟩
    simp [hw]
  · rw [if_neg h]
    exact lookup_append_single (Option.not_isSome_iff_eq_none.mp h)

theorem lookup_dict_erase_self {l : List (String × β)} {k : String} :
    (dict_erase l k).lookup k = none := by
  induction l with
  | nil => simp [dict_erase, List.lookup]
  | cons p t ih =>
    cases p with
    | mk k1 v1 =>
      by_cases hk : k1 = k
      · subst hk
        rw [show dict_erase ((k1, v1) :: t) k1 = dict_erase t k1 by
          simp [dict_erase, List.filter_cons]]
        exact ih
      · have hk' : k ≠ k1 := fun hc => hk hc.symm
        rw [show dict_erase ((k1, v1) :: t) k = (k1, v1) :: dict_erase t k by
            simp [dict_erase, List.filter_cons, beq_eq_false_iff_ne.mpr hk],
          show List.lookup k ((k1, v1) :: dict_erase t k)
              = List.lookup k (dict_erase t k) by
            simp [List.lookup, beq_eq_false_iff_ne.mpr hk']]
        exact ih

theorem lookup_filter_snd {l : List (String × β)} {k : String} {v : β}
    (g : β → Bool)
    (h : (l.filter (fun p => g p.2)).lookup k = some v) : g v = true := by
  induction l with
  | nil => simp [List.lookup] at h
  | cons p t ih =>
    cases p with
    | mk k1 v1 =>
      by_cases hg : g v1 = true
      · rw [List.filter_cons_of_pos (by simpa using hg)] at h
        by_cases hk : k = k1
        · have hbeq : (k == k1) = true := beq_iff_eq.mpr hk
          simp only [List.lookup, hbeq] at h
          injection h with h2
          rw [← h2]; exact hg
        · have hbeq : (k == k1) = false := beq_eq_false_iff_ne.mpr hk
          simp only [List.lookup, hbeq] at h
          exact ih h
      · rw [List.filter_cons_of_neg (by simpa using hg)] at h
        exact ih h

end AssocListLemmas

theorem cap_1000_sublist (dv : List HistVideo) :
    List.Sublist (cap_1000 dv) dv := by
  unfold cap_1000
  split
  · exact List.drop_sublist _ _
  · exact List.Sublist.refl _

theorem update_present {h : ChannelHistory} {handle : String}
    {v : VideoInfo} {now : Nat} {e : ChannelEntry}
    (hlk : h.channels.lookup handle = some e) :
    update_channel_history h handle v now =
      if v.id ∈ e.downloaded_videos.map HistVideo.id then h
      else
        { h with channels := (alist_set h.channels handle
            ⟨cap_1000 (e.downloaded_videos ++ [new_hist_video v now]), now⟩) } := by
  simp only [update_channel_history, hlk, Option.isSome_some, if_true,
    Option.getD_some, cap_1000, new_hist_video]

theorem update_absent {h : ChannelHistory} {handle : String}
    {v : VideoInfo} {now : Nat}
    (hlk : h.channels.lookup handle = none) :
    update_channel_history h handle v now =
      { h with channels :=
          (alist_set (h.channels ++ [(handle, ⟨[], now⟩)]) handle
            ⟨[new_hist_video v now], now⟩) } := by
  have hlk2 : (h.channels ++
      [(handle, ({ downloaded_videos := [], last_download := now } :
        ChannelEntry))]).lookup handle =
      some { downloaded_videos := [], last_download := now } :=
    lookup_append_single hlk
  simp only [update_channel_history, hlk, Option.isSome_none, Bool.false_eq_true,
    if_false, hlk2, Option.getD_some, List.map_nil, List.not_mem_nil,
    if_neg (List.not_mem_nil v.id), List.nil_append, List.length_cons,
    List.length_nil, new_hist_video]
  norm_num

theorem history_well_formed_update {h : ChannelHistory} {handle : String}
    {v : VideoInfo} {now : Nat} (hwf : history_well_formed h) :
    history_well_formed (update_channel_history h handle v now) := by
  intro p hp
  cases hlk : h.channels.lookup handle with
  | some e =>
    rw [update_present hlk] at hp
    by_cases hmem : v.id ∈ e.downloaded_videos.map HistVideo.id
    · rw [if_pos hmem] at hp
      exact hwf p hp
    · rw [if_neg hmem] at hp
      rcases mem_alist_set hp with hp' | hp'
      · exact hwf p hp'
      · subst hp'
        have hend : (e.downloaded_videos.map HistVideo.id).Nodup :=
          hwf (handle, e) (lookup_mem hlk)
        have happ : ((e.downloaded_videos ++
            [new_hist_video v now]).map HistVideo.id).Nodup := by
          simp [List.nodup_append, hend, new_hist_video, hmem]
        exact List.Nodup.sublist
          (List.Sublist.map _ (cap_1000_sublist _)) happ
  | none =>
    rw [update_absent hlk] at hp
    rcases mem_alist_set hp with hp' | hp'
    · rcases List.mem_append.mp hp' with hq | hq
      · exact hwf p hq
      · have : p = (handle, (⟨[], now⟩ : ChannelEntry)) := by simpa using hq
        subst this; simp
    · subst hp'; simp

theorem history_well_formed_apply_ops {h : ChannelHistory}
    (ops : List (String × VideoInfo × Nat))
    (hwf : history_well_formed h) :
    history_well_formed (apply_history_ops h ops) := by
  induction ops generalizing h with
  | nil => exact hwf
  | cons op rest ih =>
    exact ih (history_well_formed_update hwf)

theorem is_downloaded_iff {h : ChannelHistory} {handle w : String} :
    is_video_downloaded h handle w = true ↔
      ∃ x ∈ entry_videos h handle, x.id = w := by
  unfold is_video_downloaded entry_videos
  cases h.channels.lookup handle with
  | none => simp
  | some e => simp [List.any_eq_true]

theorem entry_videos_update {h : ChannelHistory} {handle : String}
    {v : VideoInfo} {now : Nat}
    (hlen : (entry_videos h handle).length < 1000) :
    entry_videos (update_channel_history h handle v now) handle =
      if v.id ∈ (entry_videos h handle).map HistVideo.id
      then entry_videos h handle
      else entry_videos h handle ++ [new_hist_video v now] := by
  cases hlk : h.channels.lookup handle with
  | some e =>
    have hev : entry_videos h handle = e.downloaded_videos := by
      simp [entry_videos, hlk]
    rw [hev] at hlen ⊢
    rw [update_present hlk]
    by_cases hmem : v.id ∈ e.downloaded_videos.map HistVideo.id
    · rw [if_pos hmem, if_pos hmem, hev]
    · rw [if_neg hmem, if_neg hmem]
      have hset : (alist_set h.channels handle
          (⟨cap_1000 (e.downloaded_videos ++ [new_hist_video v now]), now⟩ :
            ChannelEntry)).lookup handle =
          some ⟨cap_1000 (e.downloaded_videos ++ [new_hist_video v now]), now⟩ := by
        rw [lookup_alist_set, hlk]; rfl
      have hcap : cap_1000 (e.downloaded_videos ++ [new_hist_video v now])
          = e.downloaded_videos ++ [new_hist_video v now] := by
        unfold cap_1000
        rw [if_neg]
        simp only [List.length_append, List.length_cons, List.length_nil]
        omega
      rw [hcap] at hset
      rw [hcap]
      simp [entry_videos, hset]
  | none =>
    have hev : entry_videos h handle = [] := by simp [entry_videos, hlk]
    rw [hev]
    rw [update_absent hlk]
    have hset : (alist_set (h.channels ++ [(handle, (⟨[], now⟩ : ChannelEntry))])
        handle (⟨[new_hist_video v now], now⟩ : ChannelEntry)).lookup handle =
        some ⟨[new_hist_video v now], now⟩ := by
      rw [lookup_alist_set, lookup_append_single hlk]; rfl
    simp [entry_videos, hset]

theorem entry_videos_update_sublist (h : ChannelHistory) (handle : String)
    (v : VideoInfo) (now : Nat) :
    List.Sublist (entry_videos (update_channel_history h handle v now) handle)
      (entry_videos h handle ++ [new_hist_video v now]) := by
  cases hlk : h.channels.lookup handle with
  | some e =>
    have hev : entry_videos h handle = e.downloaded_videos := by
      simp [entry_videos, hlk]
    rw [hev, update_present hlk]
    by_cases hmem : v.id ∈ e.downloaded_videos.map HistVideo.id
    · rw [if_pos hmem, hev]
      exact List.sublist_append_left _ _
    · rw [if_neg hmem]
      have hset : (alist_set h.channels handle
          (⟨cap_1000 (e.downloaded_videos ++ [new_hist_video v now]), now⟩ :
            ChannelEntry)).lookup handle =
          some ⟨cap_1000 (e.downloaded_videos ++ [new_hist_video v now]), now⟩ := by
        rw [lookup_alist_set, hlk]; rfl
      simp only [entry_videos, hset]
      exact cap_1000_sublist _
  | none =>
    have hev : entry_videos h handle = [] := by simp [entry_videos, hlk]
    rw [hev, update_absent hlk]
    have hset : (alist_set (h.channels ++ [(handle, (⟨[], now⟩ : ChannelEntry))])
        handle (⟨[new_hist_video v now], now⟩ : ChannelEntry)).lookup handle =
        some ⟨[new_hist_video v now], now⟩ := by
      rw [lookup_alist_set, lookup_append_single hlk]; rfl
    simp [entry_videos, hset]

theorem entry_videos_update_length (h : ChannelHistory) (handle : String)
    (v : VideoInfo) (now : Nat) :
    (entry_videos (update_channel_history h handle v now) handle).length ≤
      (entry_videos h handle).length + 1 := by
  have := List.Sublist.length_le (entry_videos_update_sublist h handle v now)
  simpa using this

theorem is_downloaded_update_iff {h : ChannelHistory} {handle : String}
    {v : VideoInfo} {now : Nat}
    (hlen : (entry_videos h handle).length < 1000) (w : String) :
    is_video_downloaded (update_channel_history h handle v now) handle w = true
      ↔ (is_video_downloaded h handle w = true ∨ v.id = w) := by
  rw [is_downloaded_iff, is_downloaded_iff, entry_videos_update hlen]
  by_cases hmem : v.id ∈ (entry_videos h handle).map HistVideo.id
  · rw [if_pos hmem]
    constructor
    · exact Or.inl
    · rintro (hx | hx)
      · exact hx
      · rcases List.mem_map.mp hmem with ⟨x, hxm, hxid⟩
        exact ⟨x, hxm, by rw [hxid, hx]⟩
  · rw [if_neg hmem]
    constructor
    · rintro ⟨x, hxm, hxid⟩
      rcases List.mem_append.mp hxm with hx | hx
      · exact Or.inl ⟨x, hx, hxid⟩
      · right
        have : x = new_hist_video v now := by simpa using hx
        rw [← hxid, this]; rfl
    · rintro (⟨x, hxm, hxid⟩ | hx)
      · exact ⟨x, List.mem_append.mpr (Or.inl hxm), hxid⟩
      · exact ⟨new_hist_video v now,
          List.mem_append.mpr (Or.inr (by simp)), hx⟩

theorem is_downloaded_update_imp {h : ChannelHistory} {handle : String}
    {v : VideoInfo} {now : Nat} {w : String}
    (hd : is_video_downloaded (update_channel_history h handle v now) handle w
      = true) :
    is_video_downloaded h handle w = true ∨ v.id = w := by
  rcases is_downloaded_iff.mp hd with ⟨x, hxm, hxid⟩
  have hx2 := (entry_videos_update_sublist h handle v now).subset hxm
  rcases List.mem_append.mp hx2 with hx | hx
  · exact Or.inl (is_downloaded_iff.mpr ⟨x, hx, hxid⟩)
  · right
    have : x = new_hist_video v now := by simpa using hx
    rw [← hxid, this]; rfl

theorem entry_videos_commit_length (handle : String) (now : Nat)
    (vids : List VideoInfo) :
    ∀ h : ChannelHistory,
      (entry_videos (commit_downloads h handle vids now) handle).length ≤
        (entry_videos h handle).length + vids.length := by
  induction vids with
  | nil => intro h; simp [commit_downloads]
  | cons u rest ih =>
    intro h
    have hstep := entry_videos_update_length h handle u now
    have := ih (update_channel_history h handle u now)
    simp only [commit_downloads, List.foldl_cons, List.length_cons] at *
    omega

theorem is_downloaded_commit_iff (handle : String) (now : Nat)
    (vids : List VideoInfo) :
    ∀ h : ChannelHistory,
      (entry_videos h handle).length + vids.length ≤ 1000 →
      ∀ w, is_video_downloaded (commit_downloads h handle vids now) handle w
          = true ↔
        (is_video_downloaded h handle w = true ∨ ∃ u ∈ vids, u.id = w) := by
  induction vids with
  | nil => intro h _ w; simp [commit_downloads]
  | cons u rest ih =>
    intro h hlen w
    have hlt : (entry_videos h handle).length < 1000 := by
      simp only [List.length_cons] at hlen; omega
    have hlen' : (entry_videos (update_channel_history h handle u now)
        handle).length + rest.length ≤ 1000 := by
      have := entry_videos_update_length h handle u now
      simp only [List.length_cons] at hlen
      omega
    have hstep := @is_downloaded_update_iff h handle u now hlt
    simp only [commit_downloads, List.foldl_cons]
    rw [show (List.foldl (fun acc v => update_channel_history acc handle v now)
        (update_channel_history h handle u now) rest)
        = commit_downloads (update_channel_history h handle u now) handle rest
            now from rfl]
    rw [ih _ hlen' w, hstep w]
    constructor
    · rintro ((hd | hd) | ⟨x, hxm, hxid⟩)
      · exact Or.inl hd
      · exact Or.inr ⟨u, by simp, hd⟩
      · exact Or.inr ⟨x, List.mem_cons_of_mem _ hxm, hxid⟩
    · rintro (hd | ⟨x, hxm, hxid⟩)
      · exact Or.inl (Or.inl hd)
      · rcases List.mem_cons.mp hxm with hx | hx
        · subst hx; exact Or.inl (Or.inr hxid)
        · exact Or.inr ⟨x, hx, hxid⟩

theorem is_downloaded_commit_imp (handle : String) (now : Nat)
    (vids : List VideoInfo) :
    ∀ (h : ChannelHistory) (w : String),
      is_video_downloaded (commit_downloads h handle vids now) handle w = true →
      (is_video_downloaded h handle w = true ∨ ∃ u ∈ vids, u.id = w) := by
  induction vids with
  | nil =>
    intro h w hd
    left
    simpa [commit_downloads] using hd
  | cons u rest ih =>
    intro h w hd
    simp only [commit_downloads, List.foldl_cons] at hd
    rcases ih (update_channel_history h handle u now) w hd with hd' | ⟨x, hxm, hxid⟩
    · rcases is_downloaded_update_imp hd' with hd'' | hd''
      · exact Or.inl hd''
      · exact Or.inr ⟨u, by simp, hd''⟩
    · exact Or.inr ⟨x, List.mem_cons_of_mem _ hxm, hxid⟩

theorem plan_foldl_spec (fs : Bool) (h : ChannelHistory) (key dn kind : String)
    (recent : List VideoInfo) :
    ∀ acc : PlanAcc,
      recent.foldl (plan_step fs h key dn kind) acc =
        ⟨acc.tasks ++
            (recent.filter (keep_video fs h key)).map (fun v => (v, dn, kind)),
          acc.new_videos_count + recent.countP (keep_video fs h key),
          acc.already_downloaded_count + recent.countP
            (fun v => !(fs && decide (v.duration < 60)) &&
              is_video_downloaded h key v.id),
          acc.shorts_skipped +
            recent.countP (fun v => fs && decide (v.duration < 60))⟩ := by
  induction recent with
  | nil => intro acc; cases acc; simp
  | cons v rest ih =>
    intro acc
    rw [List.foldl_cons]
    by_cases hs : (fs && decide (v.duration < 60)) = true
    · rw [show plan_step fs h key dn kind acc v
          = { acc with shorts_skipped := acc.shorts_skipped + 1 } by
        simp [plan_step, hs]]
      rw [ih]
      cases acc
      simp only [PlanAcc.mk.injEq]
      refine ⟨?_, ?_, ?_, ?_⟩
      · rw [List.filter_cons_of_neg (by simp [keep_video, hs])]
      · rw [List.countP_cons_of_neg _ _ (by simp [keep_video, hs])]
      · rw [List.countP_cons_of_neg _ _ (by simp [hs])]
      · rw [List.countP_cons_of_pos _ _ (by simp [hs])]
        omega
    · by_cases hd : is_video_downloaded h key v.id = true
      · rw [show plan_step fs h key dn kind acc v
            = { acc with already_downloaded_count :=
                acc.already_downloaded_count + 1 } by
          simp [plan_step, hs, hd]]
        rw [ih]
        cases acc
        simp only [PlanAcc.mk.injEq]
        refine ⟨?_, ?_, ?_, ?_⟩
        · rw [List.filter_cons_of_neg (by simp [keep_video, hs, hd])]
        · rw [List.countP_cons_of_neg _ _ (by simp [keep_video, hs, hd])]
        · rw [List.countP_cons_of_pos _ _ (by simp [hs, hd])]
          omega
        · rw [List.countP_cons_of_neg _ _ (by simp [hs])]
      · rw [show plan_step fs h key dn kind acc v
            = ⟨acc.tasks ++ [(v, dn, kind)], acc.new_videos_count + 1,
               acc.already_downloaded_count, acc.shorts_skipped⟩ by
          cases acc; simp [plan_step, hs, hd]]
        rw [ih]
        cases acc
        simp only [PlanAcc.mk.injEq]
        refine ⟨?_, ?_, ?_, ?_⟩
        · rw [List.filter_cons_of_pos (by simp [keep_video, hs, hd])]
          simp
        · rw [List.countP_cons_of_pos _ _ (by simp [keep_video, hs, hd])]
          omega
        · rw [List.countP_cons_of_neg _ _ (by simp [hs, hd])]
        · rw [List.countP_cons_of_neg _ _ (by simp [hs])]

theorem plan_tasks_eq (fs : Bool) (h : ChannelHistory) (handle dn : String)
    (recent : List VideoInfo) :
    (process_channel_auto_plan fs h handle dn recent).tasks =
      (recent.filter (keep_video fs h handle)).map
        (fun v => (v, dn, "channel")) := by
  unfold process_channel_auto_plan
  rw [plan_foldl_spec]
  simp

theorem plan_task_videos_eq (fs : Bool) (h : ChannelHistory)
    (handle dn : String) (recent : List VideoInfo) :
    (process_channel_auto_plan fs h handle dn recent).tasks.map Prod.fst =
      recent.filter (keep_video fs h handle) := by
  rw [plan_tasks_eq, List.map_map,
    show (Prod.fst ∘ fun v : VideoInfo => (v, dn, "channel")) = id from rfl,
    List.map_id]

/-- C1: after any sequence of history commits starting from a well-formed
    (for example empty) history, every source's downloaded_videos list has
    pairwise-distinct ids: the number of distinct ids equals the length of
    the list. -/
theorem C1_history_ids_distinct (h : ChannelHistory)
    (ops : List (String × VideoInfo × Nat))
    (hwf : history_well_formed h) :
    ∀ p ∈ (apply_history_ops h ops).channels,
      ((p.2.downloaded_videos.map HistVideo.id).dedup.length
        = p.2.downloaded_videos.length) := by
  intro p hp
  have hnd := history_well_formed_apply_ops ops hwf p hp
  rw [List.dedup_eq_self.mpr hnd, List.length_map]

/-- Witness for C1 at a concrete commit sequence (the same id committed
    twice, plus a second source). -/
theorem C1_history_ids_distinct_witness :
    history_well_formed ⟨[], false⟩ ∧
    ∀ p ∈ (apply_history_ops ⟨[], false⟩
        [("chA", ⟨"a", "T1", "u1", 120⟩, 1),
         ("chA", ⟨"a", "T1", "u1", 120⟩, 2),
         ("chA", ⟨"b", "T2", "u2", 90⟩, 3),
         ("chB", ⟨"a", "T1", "u1", 120⟩, 4)]).channels,
      ((p.2.downloaded_videos.map HistVideo.id).dedup.length
        = p.2.downloaded_videos.length) :=
  ⟨by intro p hp; simp at hp,
   C1_history_ids_distinct ⟨[], false⟩ _ (by intro p hp; simp at hp)⟩

/-- C2: if a source's pass is run twice with identical scan results, all
    of the first pass's planned downloads succeed and are committed, and
    the steady state is not disturbed by the 1000-entry history cap (the
    claim's "every previously fetched id is in History"), then the second
    pass plans zero fetch tasks, hence performs zero downloads, and its
    commit step adds zero new History entries. -/
theorem C2_second_pass_idempotent (fs : Bool) (h : ChannelHistory)
    (handle dn : String) (recent done : List VideoInfo) (now now' : Nat)
    (hlen : (entry_videos h handle).length + recent.length ≤ 1000)
    (hdone : done.Perm
      ((process_channel_auto_plan fs h handle dn recent).tasks.map Prod.fst)) :
    (process_channel_auto_plan fs (commit_downloads h handle done now)
        handle dn recent).tasks = [] ∧
    (process_channel_auto_plan fs (commit_downloads h handle done now)
        handle dn recent).new_videos_count = 0 ∧
    commit_downloads (commit_downloads h handle done now) handle
        ((process_channel_auto_plan fs (commit_downloads h handle done now)
          handle dn recent).tasks.map Prod.fst) now'
      = commit_downloads h handle done now := by
  have hfilter := plan_task_videos_eq fs h handle dn recent
  have hdone' : done.Perm (recent.filter (keep_video fs h handle)) := by
    rwa [hfilter] at hdone
  have hdl : done.length ≤ recent.length := by
    rw [hdone'.length_eq]
    exact List.length_filter_le _ _
  have hlen2 : (entry_videos h handle).length + done.length ≤ 1000 := by
    omega
  have hiff := is_downloaded_commit_iff handle now done h hlen2
  have hkeep : ∀ v ∈ recent,
      ¬ (keep_video fs (commit_downloads h handle done now) handle v = true) := by
    intro v hv
    by_cases hsv : (fs && decide (v.duration < 60)) = true
    · simp [keep_video, hsv]
    · have hd1 : is_video_downloaded (commit_downloads h handle done now)
          handle v.id = true := by
        by_cases hdv : is_video_downloaded h handle v.id = true
        · exact (hiff v.id).mpr (Or.inl hdv)
        · have hvf : v ∈ recent.filter (keep_video fs h handle) :=
            List.mem_filter.mpr ⟨hv, by simp [keep_video, hsv, hdv]⟩
          have hvd : v ∈ done := hdone'.mem_iff.mpr hvf
          exact (hiff v.id).mpr (Or.inr ⟨v, hvd, rfl⟩)
      simp [keep_video, hd1]
  have htasks2 : (process_channel_auto_plan fs
      (commit_downloads h handle done now) handle dn recent).tasks = [] := by
    rw [plan_tasks_eq, List.filter_eq_nil_iff.mpr hkeep]
    simp
  refine ⟨htasks2, ?_, ?_⟩
  · have hcount : List.countP
        (keep_video fs (commit_downloads h handle done now) handle) recent
        = 0 :=
      List.countP_eq_zero.mpr hkeep
    unfold process_channel_auto_plan
    rw [plan_foldl_spec]
    simpa using hcount
  · rw [htasks2]
    simp [commit_downloads]

/-- Witness for C2 at a concrete source: one item fetched and committed in
    pass one, the identical scan in pass two plans nothing. -/
theorem C2_second_pass_idempotent_witness :
    (process_channel_auto_plan true
        (commit_downloads ⟨[], true⟩ "ch" [⟨"a", "T", "u", 120⟩] 5)
        "ch" "Chan" [⟨"a", "T", "u", 120⟩]).tasks = [] :=
  (C2_second_pass_idempotent true ⟨[], true⟩ "ch" "Chan"
    [⟨"a", "T", "u", 120⟩] [⟨"a", "T", "u", 120⟩] 5 6
    (by decide) (by decide)).1

/-- C3 counterexample: the steady-state planner has no within-scan
    deduplication, so a scan that repeats one (not yet downloaded,
    non-short) id yields two fetch tasks for the same (source, id) pair,
    refuting the claimed bound of at most one. -/
theorem C3_duplicate_scan_two_tasks :
    ((process_channel_auto_plan true ⟨[], true⟩ "ch" "Chan"
        [⟨"a", "T", "u", 120⟩, ⟨"a", "T", "u", 120⟩]).tasks.map
          (fun t => (t.2.1, t.1.id)))
        = [("Chan", "a"), ("Chan", "a")] ∧
    ¬ ((process_channel_auto_plan true ⟨[], true⟩ "ch" "Chan"
        [⟨"a", "T", "u", 120⟩, ⟨"a", "T", "u", 120⟩]).tasks.countP
          (fun t => t.2.1 == "Chan" && t.1.id == "a") ≤ 1) :=
  ⟨by decide, by decide⟩

/-- C3 (amended): when the scan's ids are pairwise distinct, the planner
    emits at most one fetch task per (source, id) pair: the emitted task
    ids are pairwise distinct. -/
theorem C3_tasks_nodup_of_scan_nodup (fs : Bool) (h : ChannelHistory)
    (handle dn : String) (recent : List VideoInfo)
    (hnd : (recent.map VideoInfo.id).Nodup) :
    ((process_channel_auto_plan fs h handle dn recent).tasks.map
      (fun t => t.1.id)).Nodup := by
  have hmaps : (process_channel_auto_plan fs h handle dn recent).tasks.map
      (fun t => t.1.id)
      = (recent.filter (keep_video fs h handle)).map VideoInfo.id := by
    rw [plan_tasks_eq, List.map_map]
    rfl
  rw [hmaps]
  exact List.Nodup.sublist
    (List.Sublist.map _ (List.filter_sublist _)) hnd

/-- Witness for the amended C3 at a concrete duplicate-free scan. -/
theorem C3_tasks_nodup_of_scan_nodup_witness :
    ((([⟨"a", "T", "u", 120⟩, ⟨"b", "S", "u2", 200⟩] :
        List VideoInfo)).map VideoInfo.id).Nodup ∧
    ((process_channel_auto_plan true ⟨[], true⟩ "ch" "Chan"
        [⟨"a", "T", "u", 120⟩, ⟨"b", "S", "u2", 200⟩]).tasks.map
      (fun t => t.1.id)).Nodup :=
  ⟨by decide,
   C3_tasks_nodup_of_scan_nodup true ⟨[], true⟩ "ch" "Chan"
     [⟨"a", "T", "u", 120⟩, ⟨"b", "S", "u2", 200⟩] (by decide)⟩

/-- C4 counterexample: the first-run (initial-population) path emits every
    scanned item, so a 45-second item becomes a fetch task there even
    though short-filtering is enabled, refuting the claim for that path
    (the first-run loop never consults the short filter). -/
theorem C4_first_run_emits_short :
    process_channel_first_run "ch" "Chan" 3 [⟨"s1", "Short", "u", 45⟩]
      = [(⟨"s1", "Short", "u", 45⟩, "Chan", "channel")] ∧ 45 < 60 :=
  ⟨rfl, by decide⟩

/-- C4 (amended): on the steady-state path with short-filtering enabled, a
    sub-60-second item is never emitted as a fetch task, is counted in the
    skipped-shorts tally, is not counted as already-downloaded even when
    its id is in History (the short check precedes the history check), and
    committing the pass's tasks never adds an id to History that only
    short items carry. -/
theorem C4_steady_state_short_filtering (h : ChannelHistory)
    (handle dn : String) (recent : List VideoInfo) (now : Nat) :
    (∀ t ∈ (process_channel_auto_plan true h handle dn recent).tasks,
      ¬ t.1.duration < 60) ∧
    (process_channel_auto_plan true h handle dn recent).shorts_skipped
      = recent.countP (fun v => decide (v.duration < 60)) ∧
    (process_channel_auto_plan true h handle dn recent).already_downloaded_count
      = recent.countP (fun v => !decide (v.duration < 60) &&
          is_video_downloaded h handle v.id) ∧
    (∀ w, is_video_downloaded
        (commit_downloads h handle
          ((process_channel_auto_plan true h handle dn recent).tasks.map
            Prod.fst) now) handle w = true →
      (is_video_downloaded h handle w = true ∨
        ∃ v ∈ recent, ¬ v.duration < 60 ∧ v.id = w)) := by
  refine ⟨?_, ?_, ?_, ?_⟩
  · intro t ht
    rw [plan_tasks_eq] at ht
    rcases List.mem_map.mp ht with ⟨v, hvf, rfl⟩
    have hkeep := (List.mem_filter.mp hvf).2
    simp [keep_video] at hkeep
    exact Nat.not_lt.mpr hkeep.1
  · unfold process_channel_auto_plan
    rw [plan_foldl_spec]
    simp
  · unfold process_channel_auto_plan
    rw [plan_foldl_spec]
    simp
  · intro w hw
    rcases is_downloaded_commit_imp handle now _ h w hw with hd | ⟨u, hu, huid⟩
    · exact Or.inl hd
    · rw [plan_task_videos_eq] at hu
      rcases List.mem_filter.mp hu with ⟨hur, hukeep⟩
      simp [keep_video] at hukeep
      exact Or.inr ⟨u, hur, Nat.not_lt.mpr hukeep.1, huid⟩

/-- Witness for the amended C4 at a concrete scan (one 45-second short,
    one long video): the skipped-shorts tally counts exactly the short. -/
theorem C4_steady_state_short_filtering_witness :
    (process_channel_auto_plan true ⟨[], true⟩ "ch" "Chan"
        [⟨"s1", "Short", "u", 45⟩, ⟨"v1", "Long", "u2", 120⟩]).shorts_skipped
      = ([⟨"s1", "Short", "u", 45⟩, ⟨"v1", "Long", "u2", 120⟩] :
          List VideoInfo).countP (fun v => decide (v.duration < 60)) :=
  (C4_steady_state_short_filtering ⟨[], true⟩ "ch" "Chan"
    [⟨"s1", "Short", "u", 45⟩, ⟨"v1", "Long", "u2", 120⟩] 0).2.1

theorem first_run_completed_update (h : ChannelHistory) (handle : String)
    (v : VideoInfo) (now : Nat) :
    (update_channel_history h handle v now).first_run_completed
      = h.first_run_completed := by
  cases hlk : h.channels.lookup handle with
  | some e =>
    rw [update_present hlk]
    split
    · rfl
    · rfl
  | none =>
    rw [update_absent hlk]

theorem first_run_completed_commit (env : RunEnv)
    (tasks : List (VideoInfo × String × String)) (succ : VideoInfo → Bool)
    (now : Nat) :
    ∀ h : ChannelHistory,
      (download_videos_parallel_commit env h tasks succ now).first_run_completed
        = h.first_run_completed := by
  induction tasks with
  | nil => intro h; rfl
  | cons t rest ih =>
    intro h
    rw [show download_videos_parallel_commit env h (t :: rest) succ now
        = download_videos_parallel_commit env
            (if succ t.1 then
              match
                (if t.2.2 = "channel" then first_key_for env.channels t.2.1
                 else first_key_for env.playlists t.2.1) with
              | some key => update_channel_history h key t.1 now
              | none => h
            else h) rest succ now from rfl]
    rw [ih]
    split
    · split
      · rw [first_run_completed_update]
      · rfl
    · rfl

/-- C5: after any run_auto_download pass the persisted first-run flag is
    false — on a first run it is set during the pass regardless of how
    many downloads succeed (even zero), and no later pass or history
    commit ever turns it back on. -/
theorem C5_first_run_flag_cleared (env : RunEnv) (filter_shorts : Bool)
    (initial_limit : Nat) (h : ChannelHistory) (succeeds : VideoInfo → Bool)
    (now : Nat) :
    is_first_run (run_auto_download env filter_shorts initial_limit h
      succeeds now) = false := by
  simp only [run_auto_download]
  by_cases hfr : is_first_run h = true
  · rw [if_pos hfr]
    unfold is_first_run
    rw [first_run_completed_commit]
    rfl
  · rw [if_neg hfr]
    unfold is_first_run
    rw [first_run_completed_commit]
    have hdone : h.first_run_completed = true := by
      cases hb : h.first_run_completed with
      | true => rfl
      | false => exact absurd (by simp [is_first_run, hb]) hfr
    rw [hdone]
    rfl

/-- C6: a download is reported successful iff the process exited 0 and no
    captured stderr line contains the "ERROR:" marker; exit code 0 with an
    error-marked stderr line is reported as a failure carrying the summary
    built from the last five stderr lines. -/
theorem C6_download_success_iff (return_code : Int)
    (stderr_lines : List String) (video_id : String) :
    ((execute_download_result return_code stderr_lines video_id).1 = true ↔
      (return_code = 0 ∧ ∀ l ∈ stderr_lines, line_has_error l = false)) ∧
    ((return_code = 0 ∧ ∃ l ∈ stderr_lines, line_has_error l = true) →
      execute_download_result return_code stderr_lines video_id
        = (false, video_id, String.join (lastN 5 stderr_lines))) := by
  constructor
  · by_cases hrc : return_code = 0
    · by_cases herr : stderr_lines.any line_has_error = true
      · rw [show execute_download_result return_code stderr_lines video_id
            = (false, video_id,
                if stderr_lines.isEmpty then "Unknown error"
                else String.join (lastN 5 stderr_lines)) by
          unfold execute_download_result
          rw [if_pos hrc, if_pos herr]]
        constructor
        · intro hfalse
          simp at hfalse
        · rintro ⟨-, hall⟩
          rcases List.any_eq_true.mp herr with ⟨l, hl, hle⟩
          rw [hall l hl] at hle
          cases hle
      · rw [show execute_download_result return_code stderr_lines video_id
            = (true, video_id, "") by
          unfold execute_download_result
          rw [if_pos hrc, if_neg herr]]
        have hall : ∀ l ∈ stderr_lines, line_has_error l = false := by
          intro l hl
          cases hv : line_has_error l with
          | false => rfl
          | true => exact absurd (List.any_eq_true.mpr ⟨l, hl, hv⟩) herr
        exact ⟨fun _ => ⟨hrc, hall⟩, fun _ => rfl⟩
    · rw [show execute_download_result return_code stderr_lines video_id
          = (false, video_id,
              if stderr_lines.isEmpty then "Unknown error"
              else String.join (lastN 5 stderr_lines)) by
        unfold execute_download_result
        rw [if_neg hrc]]
      constructor
      · intro hfalse
        simp at hfalse
      · rintro ⟨h0, -⟩
        exact absurd h0 hrc
  · rintro ⟨hrc, l, hl, hle⟩
    unfold execute_download_result
    rw [if_pos hrc, if_pos (List.any_eq_true.mpr ⟨l, hl, hle⟩)]
    cases stderr_lines with
    | nil => cases hl
    | cons a t => rfl

/-- Witness for C6: exit code 0 together with an ERROR-marked stderr line
    is reported as a failure with the joined last lines as summary. -/
theorem C6_download_success_iff_witness :
    execute_download_result 0 ["ERROR: boom"] "v"
      = (false, "v", String.join (lastN 5 ["ERROR: boom"])) :=
  (C6_download_success_iff 0 ["ERROR: boom"] "v").2
    ⟨rfl, "ERROR: boom", by simp, by decide⟩

theorem get_resume_after_clear (rs : ResumeState) (item_id : String) :
    get_resume_state (clear_resume_state rs "video" item_id) "video" item_id
      = none := by
  cases hlk : rs.videos.lookup item_id with
  | some e =>
    have hs : (rs.videos.lookup item_id).isSome = true := by simp [hlk]
    unfold clear_resume_state
    rw [if_pos (by simp [hs])]
    simp [get_resume_state, lookup_dict_erase_self]
  | none =>
    have hs : (rs.videos.lookup item_id).isSome = false := by simp [hlk]
    unfold clear_resume_state
    rw [if_neg (by simp [hs])]
    rw [if_neg (by simp)]
    simp [get_resume_state, hlk]

theorem get_resume_after_update (rs : ResumeState) (item_id : String)
    (data : List (String × String)) (now : Nat) :
    get_resume_state (update_resume_state rs "video" item_id data now)
      "video" item_id = some ⟨data, TimestampField.valid now⟩ := by
  unfold update_resume_state
  rw [if_pos rfl]
  simp [get_resume_state, lookup_dict_insert_self]

/-- C7: for a download job whose item has a Resume entry, the entry is
    deleted exactly on success — after a successful job get returns none,
    and after a failed job the entry is still present. -/
theorem C7_resume_cleared_iff_success (rs : ResumeState)
    (video_id video_url video_title source_name : String)
    (can_resume : Bool) (current_resume_progress : Nat) (success : Bool)
    (now : Nat)
    (hhas : (get_resume_state rs "video" video_id).isSome = true) :
    (success = true →
      get_resume_state
        (download_video_resume_effect rs video_id video_url video_title
          source_name can_resume current_resume_progress success now)
        "video" video_id = none) ∧
    (success = false →
      (get_resume_state
        (download_video_resume_effect rs video_id video_url video_title
          source_name can_resume current_resume_progress success now)
        "video" video_id).isSome = true) := by
  constructor
  · intro hsucc
    subst hsucc
    rw [show download_video_resume_effect rs video_id video_url video_title
          source_name can_resume current_resume_progress true now
        = clear_resume_state
            (if ((can_resume && decide (current_resume_progress < 100)) ||
                ((get_resume_state rs "video" video_id).isSome &&
                  decide (current_resume_progress < 100))) then
              update_resume_state rs "video" video_id
                [("url", video_url), ("title", video_title),
                 ("source", source_name),
                 ("progress", toString current_resume_progress),
                 ("type", "video")] now
            else rs) "video" video_id from rfl]
    exact get_resume_after_clear _ _
  · intro hsucc
    subst hsucc
    rw [show download_video_resume_effect rs video_id video_url video_title
          source_name can_resume current_resume_progress false now
        = (if ((can_resume && decide (current_resume_progress < 100)) ||
              ((get_resume_state rs "video" video_id).isSome &&
                decide (current_resume_progress < 100))) then
            update_resume_state rs "video" video_id
              [("url", video_url), ("title", video_title),
               ("source", source_name),
               ("progress", toString current_resume_progress),
               ("type", "video")] now
          else rs) from rfl]
    by_cases hres : ((can_resume && decide (current_resume_progress < 100)) ||
        ((get_resume_state rs "video" video_id).isSome &&
          decide (current_resume_progress < 100))) = true
    · rw [if_pos hres, get_resume_after_update]
      rfl
    · rw [if_neg hres]
      exact hhas

/-- Witness for C7 at a concrete store holding an entry for the item, in
    both the success and the failure case. -/
theorem C7_resume_cleared_iff_success_witness :
    (get_resume_state
      (download_video_resume_effect
        ⟨[("a", ⟨[("progress", "50")], TimestampField.valid 3⟩)], []⟩
        "a" "u" "T" "S" true 50 true 9) "video" "a" = none) ∧
    ((get_resume_state
      (download_video_resume_effect
        ⟨[("a", ⟨[("progress", "50")], TimestampField.valid 3⟩)], []⟩
        "a" "u" "T" "S" true 50 false 9) "video" "a").isSome = true) :=
  ⟨(C7_resume_cleared_iff_success
      ⟨[("a", ⟨[("progress", "50")], TimestampField.valid 3⟩)], []⟩
      "a" "u" "T" "S" true 50 true 9 (by decide)).1 rfl,
   (C7_resume_cleared_iff_success
      ⟨[("a", ⟨[("progress", "50")], TimestampField.valid 3⟩)], []⟩
      "a" "u" "T" "S" true 50 false 9 (by decide)).2 rfl⟩

/-- C8: the duration cache returns the stored duration exactly when an
    entry for the path exists and the file's current stat equals the
    stored (mtime, size) fingerprint; any mismatch, a missing entry, or a
    missing file yields none. -/
theorem C8_duration_cache_get_iff
    (cache : List (String × DurationCacheEntry)) (path : String)
    (stat : Option (ℚ × Nat)) (d : ℚ) :
    duration_cache_get cache path stat = some d ↔
      ∃ entry, cache.lookup path = some entry ∧
        stat = some (entry.mtime, entry.size) ∧ d = entry.duration := by
  cases hlk : cache.lookup path with
  | none => simp [duration_cache_get, hlk]
  | some entry =>
    cases stat with
    | none => simp [duration_cache_get, hlk]
    | some s =>
      rw [show duration_cache_get cache path (some s)
          = (if entry.mtime = s.1 ∧ entry.size = s.2
             then some entry.duration else none) by
        simp [duration_cache_get, hlk]]
      by_cases hm : entry.mtime = s.1 ∧ entry.size = s.2
      · rw [if_pos hm]
        constructor
        · intro hd
          injection hd with hd'
          refine ⟨entry, rfl, ?_, hd'.symm⟩
          have hs : s = (entry.mtime, entry.size) := by
            cases s
            simp only [Prod.mk.injEq]
            exact ⟨hm.1.symm, hm.2.symm⟩
          rw [hs]
        · rintro ⟨e, he, -, hd⟩
          injection he with he'
          subst he'
          rw [hd]
      · rw [if_neg hm]
        constructor
        · intro hc
          cases hc
        · rintro ⟨e, he, hs, -⟩
          injection he with he'
          subst he'
          injection hs with hs'
          exact absurd ⟨by rw [hs'], by rw [hs']⟩ hm

theorem sweep_entries_no_invalid (cutoff : Nat)
    (l : List (String × ResumeEntry))
    (hok : ∀ p ∈ l, p.2.timestamp ≠ TimestampField.invalid) :
    sweep_entries cutoff l =
      (l.filter (fun p => !(decide (sweep_time p.2.timestamp < cutoff))),
       true) := by
  induction l with
  | nil => rfl
  | cons p rest ih =>
    have hok' : ∀ q ∈ rest, q.2.timestamp ≠ TimestampField.invalid :=
      fun q hq => hok q (List.mem_cons_of_mem _ hq)
    have ihr := ih hok'
    cases hts : p.2.timestamp with
    | invalid => exact absurd hts (hok p (List.mem_cons_self _ _))
    | missing =>
      by_cases hcut : epoch2000 < cutoff
      · rw [show sweep_entries cutoff (p :: rest)
            = sweep_entries cutoff rest by
          simp [sweep_entries, hts, hcut]]
        rw [ihr,
          List.filter_cons_of_neg (by simp [sweep_time, hts, hcut])]
      · rw [show sweep_entries cutoff (p :: rest)
            = ((p :: (sweep_entries cutoff rest).1),
               (sweep_entries cutoff rest).2) by
          simp [sweep_entries, hts, hcut]]
        rw [ihr,
          List.filter_cons_of_pos (by simp [sweep_time, hts, hcut])]
    | valid t =>
      by_cases hcut : t < cutoff
      · rw [show sweep_entries cutoff (p :: rest)
            = sweep_entries cutoff rest by
          simp [sweep_entries, hts, hcut]]
        rw [ihr,
          List.filter_cons_of_neg (by simp [sweep_time, hts, hcut])]
      · rw [show sweep_entries cutoff (p :: rest)
            = ((p :: (sweep_entries cutoff rest).1),
               (sweep_entries cutoff rest).2) by
          simp [sweep_entries, hts, hcut]]
        rw [ihr,
          List.filter_cons_of_pos (by simp [sweep_time, hts, hcut])]

/-- C10 counterexample: the sweep's try/except wraps the whole loop, so an
    entry whose timestamp is present but unparseable aborts the sweep and
    a later entry with no timestamp at all survives the load — get returns
    it after a fresh start, for a cutoff that postdates 2000-01-01. -/
theorem C10_unparseable_timestamp_blocks_purge :
    epoch2000 < 946684801 ∧
    get_resume_state
      (load_resume_state
        (some ⟨[("bad", ⟨[], TimestampField.invalid⟩),
               ("b", ⟨[], TimestampField.missing⟩)], []⟩) 946684801)
      "video" "b"
      = some ⟨[], TimestampField.missing⟩ :=
  ⟨by decide, rfl⟩

/-- C10 (amended): after a fresh load of the resume store whose timestamps
    are all either absent or parseable, the sweep completes, every entry
    lacking a timestamp is dated 2000-01-01 and purged for any cutoff
    after that date, and get never returns a timestampless entry. An
    unparseable timestamp aborts the sweep and voids the guarantee for the
    entries at and after it. -/
theorem C10_loaded_resume_entries_have_timestamp (file : ResumeState)
    (cutoff : Nat) (item_type item_id : String) (e : ResumeEntry)
    (hc : epoch2000 < cutoff)
    (hok_v : ∀ p ∈ file.videos, p.2.timestamp ≠ TimestampField.invalid)
    (hok_p : ∀ p ∈ file.playlists, p.2.timestamp ≠ TimestampField.invalid)
    (hget : get_resume_state (load_resume_state (some file) cutoff)
      item_type item_id = some e) :
    e.timestamp ≠ TimestampField.missing := by
  intro hmiss
  have hload : load_resume_state (some file) cutoff =
      { videos := file.videos.filter
          (fun p => !(decide (sweep_time p.2.timestamp < cutoff)))
        playlists := file.playlists.filter
          (fun p => !(decide (sweep_time p.2.timestamp < cutoff))) } := by
    show cleanup_old_resume_entries file cutoff = _
    unfold cleanup_old_resume_entries
    rw [sweep_entries_no_invalid cutoff file.videos hok_v,
      sweep_entries_no_invalid cutoff file.playlists hok_p]
    rfl
  rw [hload] at hget
  unfold get_resume_state at hget
  by_cases hv : item_type = "video"
  · rw [if_pos hv] at hget
    have hkept := lookup_filter_snd
      (fun en : ResumeEntry => !(decide (sweep_time en.timestamp < cutoff)))
      hget
    simp only [hmiss] at hkept
    simp [sweep_time, hc] at hkept
  · rw [if_neg hv] at hget
    by_cases hp : item_type = "playlist"
    · rw [if_pos hp] at hget
      have hkept := lookup_filter_snd
        (fun en : ResumeEntry => !(decide (sweep_time en.timestamp < cutoff)))
        hget
      simp only [hmiss] at hkept
      simp [sweep_time, hc] at hkept
    · rw [if_neg hp] at hget
      cases hget

/-- Witness for the amended C10: a store whose only timestamp is valid and
    recent loads cleanly and its surviving entry carries a timestamp. -/
theorem C10_loaded_resume_entries_have_timestamp_witness :
    epoch2000 < 946684801 ∧
    ((⟨[("p", "x")], TimestampField.valid 1000000000⟩ :
        ResumeEntry).timestamp ≠ TimestampField.missing) :=
  ⟨by decide,
   C10_loaded_resume_entries_have_timestamp
     ⟨[("a", ⟨[("p", "x")], TimestampField.valid 1000000000⟩)], []⟩
     946684801 "video" "a"
     ⟨[("p", "x")], TimestampField.valid 1000000000⟩
     (by decide) (by decide) (by decide) (by decide)⟩

theorem matchToks_lit_some {α : Type} (s : List Char) (rest : List Tok)
    (cs : List Char) (k : List Char → Option α) (r : α)
    (h : matchToks (Tok.lit s :: rest) cs k = some r) : s <+: cs := by
  unfold matchToks at h
  split at h
  · assumption
  · cases h

theorem matchItems_head_lit (s : List Char) (rest : List Item)
    (cs : List Char) (k : List Char → Option (List String))
    (r : List String)
    (h : matchItems (Item.tok (Tok.lit s) :: rest) cs k = some r) :
    s <+: cs := by
  unfold matchItems at h
  exact matchToks_lit_some s [] cs _ r h

theorem reSearch_head_lit (s : List Char) (rest : List Item) :
    ∀ (cs : List Char) (r : List String),
      reSearch (Item.tok (Tok.lit s) :: rest) cs = some r → s <:+: cs := by
  intro cs
  induction cs with
  | nil =>
    intro r h
    unfold reSearch at h
    exact List.IsPrefix.isInfix (matchItems_head_lit s rest [] _ r h)
  | cons c t ih =>
    intro r h
    unfold reSearch at h
    cases hm : matchItems (Item.tok (Tok.lit s) :: rest) (c :: t)
        (fun _ => some []) with
    | some caps =>
      exact List.IsPrefix.isInfix
        (matchItems_head_lit s rest (c :: t) _ caps hm)
    | none =>
      rw [hm] at h
      have h' : reSearch (Item.tok (Tok.lit s) :: rest) t = some r := h
      rcases ih r h' with ⟨pre, suf, heq⟩
      exact ⟨c :: pre, suf, by simp [heq]⟩

/-- C9 counterexample: a progress-shaped line whose percent field is
    malformed ("NA") does not degrade to a classification with unknown
    field values — the whole line loses its classification (none) — while
    the same line with a well-formed percent classifies as a download
    event with all fields captured. -/
theorem C9_malformed_numeric_loses_classification :
    parse_progress "[download]  NA% of 10.5MiB at 5.2MiB/s ETA 00:12" = none
    ∧ parse_progress "[download]  45.2% of 10.5MiB at 5.2MiB/s ETA 00:12"
      = some (ProgressInfo.download "45.2" "10.5MiB" "5.2MiB/s" "00:12") := by
  exact ⟨rfl, rfl⟩

/-- C9 (amended): the parser is a total pure function into the five
    classifications or none; it never throws; a line that contains none of
    the literal markers "[download]", "[ExtractAudio]", "[FFmpeg]" is
    unrecognized and classifies as none — equivalently any classified line
    contains one of them; malformed numeric fields simply make the
    affected pattern fail (classification none), they are not replaced by
    unknown field values. -/
theorem C9_parser_markers (line : String)
    (h : parse_progress line ≠ none) :
    ("[download]".data <:+: line.data) ∨
    ("[ExtractAudio]".data <:+: line.data) ∨
    ("[FFmpeg]".data <:+: line.data) := by
  unfold parse_progress at h
  cases hd : reSearch downloadPat line.data with
  | some caps =>
    refine Or.inl (reSearch_head_lit _ downloadPatRest line.data caps ?_)
    unfold downloadPat at hd
    exact hd
  | none =>
    rw [hd] at h
    cases he : reSearch extractPat line.data with
    | some caps =>
      refine Or.inr (Or.inl
        (reSearch_head_lit _ extractPatRest line.data caps ?_))
      unfold extractPat at he
      exact he
    | none =>
      rw [he] at h
      cases hf : reSearch ffmpegPat line.data with
      | some caps =>
        refine Or.inr (Or.inr
          (reSearch_head_lit _ ffmpegPatRest line.data caps ?_))
        unfold ffmpegPat at hf
        exact hf
      | none =>
        rw [hf] at h
        cases hp : reSearch playlistPat line.data with
        | some caps =>
          refine Or.inl (reSearch_head_lit _ playlistPatRest line.data caps ?_)
          unfold playlistPat at hp
          exact hp
        | none =>
          rw [hp] at h
          by_cases hst : "[download] Destination:".data <:+: line.data
          · have hpre : "[download]".data <+:
                "[download] Destination:".data := by decide
            exact Or.inl (List.IsInfix.trans
              (List.IsPrefix.isInfix hpre) hst)
          · exfalso
            apply h
            simp [hst]

/-- Witness for the amended C9: a classified line (the destination marker)
    contains one of the three literal markers. -/
theorem C9_parser_markers_witness :
    ("[download]".data <:+: ("[download] Destination: /tmp/a.mp4").data) ∨
    ("[ExtractAudio]".data <:+: ("[download] Destination: /tmp/a.mp4").data) ∨
    ("[FFmpeg]".data <:+: ("[download] Destination: /tmp/a.mp4").data) :=
  C9_parser_markers "[download] Destination: /tmp/a.mp4" (by decide)

end YTDaily
